import Mathlib

/-!
Verification development for the `code-review-assistant` repository.

The definitions below are a shallow embedding of the TypeScript sources
`src/github.ts` and `src/index.ts`.  Strings are modelled as `List Char`
(a JavaScript string is a sequence of characters); the JS regular
expressions used by the code are hand-compiled to deterministic scanners,
which is faithful here because every quantified class (`[^/]+`, `[^#]+`,
`\d+`, `\w+`) is delimited by a character it cannot match, so greedy
matching is forced and no backtracking can produce a different result.
Unanchored JS `String.match` is modelled by trying the anchored matcher at
every suffix, left to right, which is exactly the engine's behaviour.
-/

namespace CRA

/-- The character class `[^/]`. -/
def nonSlash (c : Char) : Bool := !(c == '/')

/-- The character class `[^#]`. -/
def nonHash (c : Char) : Bool := !(c == '#')

/-- The character class `\w` of JS regexes: `[A-Za-z0-9_]`. -/
def isWordChar (c : Char) : Bool :=
  (('a' ≤ c && c ≤ 'z') || ('A' ≤ c && c ≤ 'Z') || c.isDigit || c == '_')

/-- `Number.parseInt(d, 10)` on a string of decimal digits. -/
def digitsToNat (l : List Char) : Nat :=
  l.foldl (fun n c => n * 10 + (c.toNat - 48)) 0

/-- Does `s` start with the literal `p`? -/
def startsWithSeq : List Char → List Char → Bool
  | [], _ => true
  | _ :: _, [] => false
  | p :: ps, c :: cs => p == c && startsWithSeq ps cs

/-- Drop the literal `p` from the front of `s`, if it is a prefix. -/
def dropSeq : List Char → List Char → Option (List Char)
  | [], s => some s
  | _ :: _, [] => none
  | p :: ps, c :: cs => if p = c then dropSeq ps cs else none

/-- Does the literal `p` occur contiguously anywhere in `s`? -/
def containsSeq (p : List Char) : List Char → Bool
  | [] => startsWithSeq p []
  | c :: cs => startsWithSeq p (c :: cs) || containsSeq p cs

/-- Number of positions of `s` at which the literal `p` starts. -/
def countSeq (p : List Char) : List Char → Nat
  | [] => if startsWithSeq p [] then 1 else 0
  | c :: cs => (if startsWithSeq p (c :: cs) then 1 else 0) + countSeq p cs

/-- The result type of `parsePRIdentifier` (interface `ParsedPR`). -/
structure ParsedPR where
  owner : List Char
  repo : List Char
  number : Nat
deriving DecidableEq, Repr

/-- The URL pattern `github\.com\/([^/]+)\/([^/]+)\/pull\/(\d+)` matched at
the start of `s` (one attempt position of the unanchored JS regex). -/
def matchURLAt (s : List Char) : Option ParsedPR :=
  match dropSeq "github.com/".data s with
  | none => none
  | some r0 =>
    if r0.takeWhile nonSlash = [] then none else
    match dropSeq "/".data (r0.dropWhile nonSlash) with
    | none => none
    | some r2 =>
      if r2.takeWhile nonSlash = [] then none else
      match dropSeq "/pull/".data (r2.dropWhile nonSlash) with
      | none => none
      | some r4 =>
        if r4.takeWhile Char.isDigit = [] then none
        else some ⟨r0.takeWhile nonSlash, r2.takeWhile nonSlash,
          digitsToNat (r4.takeWhile Char.isDigit)⟩

/-- Unanchored search of the URL pattern: leftmost attempt position wins,
exactly as `prIdentifier.match(regex)` behaves in JS. -/
def findURLMatch : List Char → Option ParsedPR
  | [] => none
  | c :: cs =>
    match matchURLAt (c :: cs) with
    | some r => some r
    | none => findURLMatch cs

/-- The anchored shorthand pattern `^([^/]+)\/([^#]+)#(\d+)$`. -/
def matchShortHash (s : List Char) : Option ParsedPR :=
  if s.takeWhile nonSlash = [] then none else
  match dropSeq "/".data (s.dropWhile nonSlash) with
  | none => none
  | some r2 =>
    if r2.takeWhile nonHash = [] then none else
    match dropSeq "#".data (r2.dropWhile nonHash) with
    | none => none
    | some r4 =>
      if r4 = [] then none
      else if r4.all Char.isDigit then
        some ⟨s.takeWhile nonSlash, r2.takeWhile nonHash, digitsToNat r4⟩
      else none

/-- The anchored path shorthand pattern `^([^/]+)\/([^/]+)\/pull\/(\d+)$`. -/
def matchPathShort (s : List Char) : Option ParsedPR :=
  if s.takeWhile nonSlash = [] then none else
  match dropSeq "/".data (s.dropWhile nonSlash) with
  | none => none
  | some r2 =>
    if r2.takeWhile nonSlash = [] then none else
    match dropSeq "/pull/".data (r2.dropWhile nonSlash) with
    | none => none
    | some r4 =>
      if r4 = [] then none
      else if r4.all Char.isDigit then
        some ⟨s.takeWhile nonSlash, r2.takeWhile nonSlash, digitsToNat r4⟩
      else none

/-- The error message thrown by `parsePRIdentifier` when nothing matches. -/
def prErrorMessage (s : List Char) : List Char :=
  "Invalid PR identifier format: ".data ++ s ++
    "\nSupported formats:\n  - https://github.com/owner/repo/pull/123\n  - owner/repo#123\n  - owner/repo/pull/123".data

/-- `GitHubClient.parsePRIdentifier`: the three patterns are tried in
order, the first match wins, and a descriptive error is raised when none
matches (src/github.ts lines 39-82). -/
def parsePRIdentifier (s : List Char) : Except (List Char) ParsedPR :=
  match findURLMatch s with
  | some r => .ok r
  | none =>
    match matchShortHash s with
    | some r => .ok r
    | none =>
      match matchPathShort s with
      | some r => .ok r
      | none => .error (prErrorMessage s)

example : parsePRIdentifier "https://github.com/facebook/react/pull/28000".data =
    .ok ⟨"facebook".data, "react".data, 28000⟩ := rfl

example : parsePRIdentifier "facebook/react#28000".data =
    .ok ⟨"facebook".data, "react".data, 28000⟩ := rfl

example : parsePRIdentifier "facebook/react/pull/28000".data =
    .ok ⟨"facebook".data, "react".data, 28000⟩ := rfl

example : parsePRIdentifier "github.com/a/b#c/pull/0".data =
    .ok ⟨"a".data, "b#c".data, 0⟩ := rfl

example : parsePRIdentifier "a/b/c#12".data =
    .ok ⟨"a".data, "b/c".data, 12⟩ := rfl

example : (parsePRIdentifier "not-a-valid-ref".data).isOk = false := rfl

/-! ### Reviewer extraction (src/index.ts, `extractReviewers`) -/

/-- The heading literal used both by the extractor and the stream filter. -/
def reviewersHeading : List Char := "## 👥 Recommended Reviewers".data

/-- Text after the first (leftmost) occurrence of the literal `p` in `s`,
or `none` when `p` does not occur: models the start of the lazy group of
`/## 👥 Recommended Reviewers([\s\S]*?)(?=##|$)/`. -/
def afterFirstSeq (p : List Char) : List Char → Option (List Char)
  | [] => dropSeq p []
  | c :: cs =>
    match dropSeq p (c :: cs) with
    | some r => some r
    | none => afterFirstSeq p cs

/-- Text up to (excluding) the first occurrence of the literal `p`, or the
whole text when `p` does not occur: the lazy `[\s\S]*?` bounded by the
lookahead `(?=##|$)`. -/
def upToSeq (p : List Char) : List Char → List Char
  | [] => []
  | c :: cs => if startsWithSeq p (c :: cs) then [] else c :: upToSeq p cs

/-- `String.prototype.split("\n")`. -/
def splitOnNl : List Char → List (List Char)
  | [] => [[]]
  | c :: cs =>
    if c = '\n' then [] :: splitOnNl cs
    else
      match splitOnNl cs with
      | [] => [[c]]
      | l :: ls => (c :: l) :: ls

/-- `line.match(/@(\w+)/)`: the capture of the leftmost `@` that is
followed by at least one word character. -/
def findMention : List Char → Option (List Char)
  | [] => none
  | c :: cs =>
    if c = '@' then
      let w := cs.takeWhile isWordChar
      if w = [] then findMention cs else some w
    else findMention cs

/-- `extractReviewers` (src/index.ts lines 417-435). -/
def extractReviewers (review : List Char) : List (List Char) :=
  match afterFirstSeq reviewersHeading review with
  | none => []
  | some rest =>
    let sect := upToSeq "##".data rest
    if sect = [] then []
    else (splitOnNl sect).filterMap findMention

example :
    extractReviewers
      "## 👥 Recommended Reviewers\n- @alice (Alice) - frontend\n- @bob (Bob) - backend\n## ⚠️ Areas of Concern\n...".data =
      ["alice".data, "bob".data] := rfl

example : extractReviewers "no heading here".data = [] := rfl

example :
    extractReviewers
      "## 👥 Recommended Reviewers\n- @alice and @bob\nsee x## note\n- @carol\n## ⚠️ Areas of Concern".data =
      ["alice".data] := rfl

/-! ### PR data, diff reconstruction, prompt formatting (src/github.ts) -/

/-- The `status` field of a changed file. -/
inductive FileStatus
  | added | modified | removed | renamed
deriving DecidableEq, Repr

/-- Interface `PRFile` (src/types.ts). -/
structure PRFile where
  filename : List Char
  status : FileStatus
  additions : Nat
  deletions : Nat
  changes : Nat
  patch : Option (List Char)
deriving DecidableEq, Repr

/-- Interface `PRData` (src/types.ts). -/
structure PRData where
  number : Nat
  title : List Char
  body : List Char
  author : List Char
  url : List Char
  files : List PRFile
  diff : List Char
deriving DecidableEq, Repr

/-- JS truthiness of `f.patch`: present and non-empty. -/
def patchTruthy (f : PRFile) : Bool :=
  match f.patch with
  | none => false
  | some p => !(p == [])

/-- One diff block:
`` `diff --git a/${f.filename} b/${f.filename}\n${f.patch}` ``. -/
def diffBlock (f : PRFile) : List Char :=
  "diff --git a/".data ++ f.filename ++ " b/".data ++ f.filename ++
    "\n".data ++ f.patch.getD []

/-- `Array.prototype.join(sep)`. -/
def joinSep (sep : List Char) : List (List Char) → List Char
  | [] => []
  | [x] => x
  | x :: y :: ys => x ++ sep ++ joinSep sep (y :: ys)

/-- The diff reconstruction of `fetchPR` (src/github.ts lines 124-128):
`files.filter(f => f.patch).map(block).join("\n\n")`. -/
def constructDiff (files : List PRFile) : List Char :=
  joinSep "\n\n".data ((files.filter patchTruthy).map diffBlock)

/-- The `PRData` value returned by `fetchPR` (src/github.ts lines
132-140): every fetched file appears in `files`, and `diff` is the
reconstruction. -/
def buildPRData (number : Nat) (title body author url : List Char)
    (files : List PRFile) : PRData :=
  { number := number, title := title, body := body, author := author,
    url := url, files := files, diff := constructDiff files }

/-- `n.toString()` for a natural number. -/
def natChars (n : Nat) : List Char := (Nat.repr n).data

/-- One line of the changed-files listing:
`` `  - ${f.filename} (+${f.additions}, -${f.deletions})` ``. -/
def fileLine (f : PRFile) : List Char :=
  "  - ".data ++ f.filename ++ " (+".data ++ natChars f.additions ++
    ", -".data ++ natChars f.deletions ++ ")".data

/-- `prData.files.map(fileLine).join("\n")`. -/
def filesListOf (files : List PRFile) : List Char :=
  joinSep "\n".data (files.map fileLine)

/-- The whitespace class removed by `String.prototype.trim()`. -/
def jsWhitespace (c : Char) : Bool :=
  c == ' ' || c == '\t' || c == '\n' || c == '\r' || c == '\x0b' ||
    c == '\x0c' || c == ' ' || c == '﻿'

/-- `String.prototype.trim()`. -/
def trimChars (l : List Char) : List Char :=
  ((l.dropWhile jsWhitespace).reverse.dropWhile jsWhitespace).reverse

/-- `formatPRDataForAgent` (src/github.ts lines 197-222): the template
literal, trimmed. -/
def formatPRDataForAgent (pr : PRData) : List Char :=
  trimChars
    ("\n# Pull Request #".data ++ natChars pr.number ++ ": ".data ++
      pr.title ++ "\n\n**Author:** @".data ++ pr.author ++
      "\n**URL:** ".data ++ pr.url ++ "\n\n## Description\n\n".data ++
      (if pr.body = [] then "(No description provided)".data else pr.body) ++
      "\n\n## Changed Files\n\n".data ++ filesListOf pr.files ++
      "\n\n## Full Diff\n\n\x60\x60\x60diff\n".data ++ pr.diff ++
      "\n\x60\x60\x60\n".data)

/-! ### The streaming loop of `main` (src/index.ts lines 368-387) -/

/-- The final-review marker heading checked by the stream filter. -/
def markerHeading : List Char := "## 📋 PR Summary".data

/-- A content block of an assistant/user message. -/
inductive CBlock
  | textBlock (t : List Char)
  | otherBlock
deriving DecidableEq, Repr

/-- One message of the agent event stream. -/
inductive StreamMessage
  | assistant (content : List CBlock)
  | user (content : List CBlock)
  | result (r : List Char)
  | other
deriving DecidableEq, Repr

/-- `message.message.content.find(c => c.type === "text")`. -/
def firstText : List CBlock → Option (List Char)
  | [] => none
  | CBlock.textBlock t :: _ => some t
  | CBlock.otherBlock :: rest => firstText rest

/-- `text.endsWith("\n") ? text : text + "\n"`. -/
def ensureNl (t : List Char) : List Char :=
  if t.getLast? = some '\n' then t else t ++ ['\n']

/-- State threaded through the `for await` loop: the chunks written to
the live terminal, in order, and the captured full review. -/
structure StreamState where
  out : List (List Char)
  fullReview : List Char
deriving DecidableEq, Repr

/-- One iteration of the streaming loop (phases 1 and 2). -/
def streamStep (st : StreamState) (m : StreamMessage) : StreamState :=
  match m with
  | StreamMessage.assistant content =>
    match firstText content with
    | none => st
    | some t =>
      if containsSeq markerHeading t then st
      else { st with out := st.out ++ [ensureNl t] }
  | StreamMessage.user content =>
    match firstText content with
    | none => st
    | some t =>
      if containsSeq markerHeading t then st
      else { st with out := st.out ++ [ensureNl t] }
  | StreamMessage.result r => { st with fullReview := r }
  | StreamMessage.other => st

/-- Running the whole stream from the initial state. -/
def runStream (msgs : List StreamMessage) : StreamState :=
  msgs.foldl streamStep ⟨[], []⟩

/-- Specification-side description of what gets written live: the text
increments of assistant/user messages that do not contain the marker,
newline-normalized, in order. -/
def liveTexts (msgs : List StreamMessage) : List (List Char) :=
  msgs.filterMap fun m =>
    match m with
    | StreamMessage.assistant content =>
      (firstText content).bind fun t =>
        if containsSeq markerHeading t then none else some (ensureNl t)
    | StreamMessage.user content =>
      (firstText content).bind fun t =>
        if containsSeq markerHeading t then none else some (ensureNl t)
    | _ => none

/-- Specification-side description of the captured review: the payload of
the last result event, or empty when none arrived. -/
def lastResultPayload (msgs : List StreamMessage) : List Char :=
  msgs.foldl
    (fun acc m =>
      match m with
      | StreamMessage.result r => r
      | _ => acc) []

/-! ### Interactive prompts (src/index.ts lines 440-510) -/

/-- `answer.toLowerCase()` (ASCII case folding suffices for the compared
literals). -/
def toLowerStr (l : List Char) : List Char := l.map Char.toLower

/-- The acceptance test of both prompts:
`answer.toLowerCase() === "y" || answer.toLowerCase() === "yes"`. -/
def isYesAnswer (l : List Char) : Bool :=
  toLowerStr l == "y".data || toLowerStr l == "yes".data

/-- The environment of one run of `handleInteractivePrompts`: the two
`rl.question` outcomes (an `error` models a rejected promise) and whether
the `gh` invocations inside the two actions fail. -/
structure PromptEnv where
  ans1 : Except (List Char) (List Char)
  ans2 : Except (List Char) (List Char)
  assignFails : Bool
  postFails : Bool
deriving Repr

/-- Observable effects of one run of `handleInteractivePrompts`. -/
structure PromptTrace where
  assignCmdRun : Bool
  assignErrorReported : Bool
  commentPromptReached : Bool
  commentCmdRun : Bool
  rlClosed : Bool
deriving DecidableEq, Repr

/-- `handleInteractivePrompts` (src/index.ts lines 440-480), with
`assignReviewers` (lines 485-510) inlined: its internal try/catch means a
failed assignment only reports and never throws.  The `finally` block
closes the readline interface on every exit path; the second component is
the propagated error, if any. -/
def handleInteractivePrompts (env : PromptEnv) : PromptTrace × Option (List Char) :=
  match env.ans1 with
  | Except.error e =>
    ({ assignCmdRun := false, assignErrorReported := false,
       commentPromptReached := false, commentCmdRun := false,
       rlClosed := true }, some e)
  | Except.ok a1 =>
    let doAssign := isYesAnswer a1
    let assignErr := doAssign && env.assignFails
    match env.ans2 with
    | Except.error e =>
      ({ assignCmdRun := doAssign, assignErrorReported := assignErr,
         commentPromptReached := true, commentCmdRun := false,
         rlClosed := true }, some e)
    | Except.ok a2 =>
      ({ assignCmdRun := doAssign, assignErrorReported := assignErr,
         commentPromptReached := true, commentCmdRun := isYesAnswer a2,
         rlClosed := true }, none)

/-- The guard at the call site (src/index.ts lines 390-411): phases 3-4
run only under `if (fullReview)`, and the prompts only under
`if (!isNonInteractive && recommendedReviewers.length > 0)` where
`recommendedReviewers = extractReviewers(fullReview)`. -/
def promptsEntered (nonInteractive : Bool) (fullReview : List Char) : Bool :=
  !(fullReview == []) && !nonInteractive &&
    decide (0 < (extractReviewers fullReview).length)

/-! ### Comment posting via temp file (src/index.ts lines 515-549) -/

/-- `` `.review-${prNumber}-${Date.now()}.md` `` (the timestamp is a
parameter of the model). -/
def tempFileName (prNumber ts : Nat) : List Char :=
  ".review-".data ++ natChars prNumber ++ "-".data ++ natChars ts ++ ".md".data

/-- A flat file system: an association of names to contents. -/
structure FSState where
  files : List (List Char × List Char)
deriving DecidableEq, Repr

/-- `writeFileSync`: create or overwrite. -/
def fsWrite (fs : FSState) (name content : List Char) : FSState :=
  ⟨(name, content) :: fs.files.filter fun p => !(p.1 == name)⟩

/-- `unlinkSync` (with the surrounding try/catch that swallows a missing
file). -/
def fsUnlink (fs : FSState) (name : List Char) : FSState :=
  ⟨fs.files.filter fun p => !(p.1 == name)⟩

/-- Does a file of this name exist? -/
def fsHas (fs : FSState) (name : List Char) : Bool :=
  fs.files.any fun p => p.1 == name

/-- Observable effects of one run of `postReviewComment`. -/
structure PostTrace where
  fsAfter : FSState
  wrote : Option (List Char × List Char)
  cmdRun : Bool
  errorReported : Bool
deriving DecidableEq, Repr

/-- `postReviewComment` (src/index.ts lines 515-549): write the review to
the temp file, run `gh pr comment --body-file`, report failure of either
step, and unconditionally unlink the temp file in the `finally` block. -/
def postReviewComment (prNumber ts : Nat) (review : List Char)
    (writeFails postFails : Bool) (fs : FSState) : PostTrace :=
  let name := tempFileName prNumber ts
  if writeFails then
    { fsAfter := fsUnlink fs name, wrote := none, cmdRun := false,
      errorReported := true }
  else
    let fs1 := fsWrite fs name review
    { fsAfter := fsUnlink fs1 name, wrote := some (name, review),
      cmdRun := true, errorReported := postFails }

/-! ### Helper lemmas about the scanners -/

theorem dropSeq_self_append (p s : List Char) : dropSeq p (p ++ s) = some s := by
  induction p with
  | nil => rfl
  | cons c cs ih => simp [dropSeq, ih]

theorem dropSeq_eq_some {p s r : List Char} (h : dropSeq p s = some r) :
    s = p ++ r := by
  induction p generalizing s with
  | nil => simpa [dropSeq] using h
  | cons c cs ih =>
    cases s with
    | nil => simp [dropSeq] at h
    | cons a as =>
      rw [dropSeq] at h
      split at h
      · next hc => simpa [hc] using ih h
      · exact absurd h (by simp)

theorem takeWhile_sep {α} (p : α → Bool) {l : List α} {x : α} (rest : List α)
    (hl : ∀ c ∈ l, p c = true) (hx : p x = false) :
    (l ++ x :: rest).takeWhile p = l ∧ (l ++ x :: rest).dropWhile p = x :: rest := by
  induction l with
  | nil => simp [List.takeWhile_cons, List.dropWhile_cons, hx]
  | cons a as ih =>
    have ha : p a = true := hl a (by simp)
    have h2 := ih fun c hc => hl c (by simp [hc])
    simp [List.takeWhile_cons, List.dropWhile_cons, ha, h2.1, h2.2]

theorem takeWhile_all {α} (p : α → Bool) {l : List α}
    (hl : ∀ c ∈ l, p c = true) :
    l.takeWhile p = l ∧ l.dropWhile p = [] := by
  induction l with
  | nil => simp
  | cons a as ih =>
    have ha : p a = true := hl a (by simp)
    have h2 := ih fun c hc => hl c (by simp [hc])
    simp [List.takeWhile_cons, List.dropWhile_cons, ha, h2.1, h2.2]

theorem takeWhile_all_append {α} (p : α → Bool) {l : List α} (rest : List α)
    (hl : ∀ c ∈ l, p c = true) :
    (l ++ rest).takeWhile p = l ++ rest.takeWhile p := by
  induction l with
  | nil => simp
  | cons a as ih =>
    have ha : p a = true := hl a (by simp)
    simp [List.takeWhile_cons, ha, ih fun c hc => hl c (by simp [hc])]

theorem startsWithSeq_append {m s : List Char} (u : List Char)
    (h : startsWithSeq m s = true) : startsWithSeq m (s ++ u) = true := by
  induction m generalizing s with
  | nil => rfl
  | cons p ps ih =>
    cases s with
    | nil => simp [startsWithSeq] at h
    | cons c cs =>
      simp only [startsWithSeq, Bool.and_eq_true] at h ⊢
      exact ⟨h.1, ih h.2⟩

theorem containsSeq_of_startsWithSeq {m s : List Char}
    (h : startsWithSeq m s = true) : containsSeq m s = true := by
  cases s with
  | nil => simpa [containsSeq] using h
  | cons c cs => simp [containsSeq, h]

theorem containsSeq_append_right {m u : List Char} (s : List Char)
    (h : containsSeq m u = true) : containsSeq m (s ++ u) = true := by
  induction s with
  | nil => simpa using h
  | cons c cs ih => simp [containsSeq, ih]

theorem containsSeq_middle (m a b : List Char) :
    containsSeq m (a ++ m ++ b) = true := by
  rw [List.append_assoc]
  exact containsSeq_append_right a
    (containsSeq_of_startsWithSeq (startsWithSeq_append b (by
      induction m with
      | nil => rfl
      | cons c cs ih => simp [startsWithSeq, ih])))

theorem startsWithSeq_snoc {m s : List Char} {c : Char}
    (h : startsWithSeq m (s ++ [c]) = true) :
    startsWithSeq m s = true ∨ m.getLast? = some c := by
  induction m generalizing s with
  | nil => exact Or.inl rfl
  | cons x xs ih =>
    cases s with
    | nil =>
      rw [List.nil_append, startsWithSeq] at h
      simp only [Bool.and_eq_true, beq_iff_eq] at h
      cases xs with
      | nil => exact Or.inr (by simp [h.1])
      | cons y ys => simp [startsWithSeq] at h
    | cons a as =>
      rw [List.cons_append, startsWithSeq] at h
      simp only [Bool.and_eq_true, beq_iff_eq] at h
      rcases ih h.2 with h2 | h2
      · exact Or.inl (by rw [startsWithSeq]; simp [h.1, h2])
      · refine Or.inr ?_
        cases xs with
        | nil => simp at h2
        | cons y ys => simpa [List.getLast?_cons_cons] using h2

theorem containsSeq_snoc {m s : List Char} {c : Char}
    (h : containsSeq m (s ++ [c]) = true) :
    containsSeq m s = true ∨ m.getLast? = some c := by
  induction s with
  | nil =>
    rw [List.nil_append, containsSeq] at h
    rcases Bool.or_eq_true_iff.mp h with h1 | h1
    · rcases startsWithSeq_snoc (s := []) h1 with h2 | h2
      · cases m with
        | nil => exact Or.inl rfl
        | cons x xs => simp [startsWithSeq] at h2
      · exact Or.inr h2
    · cases m with
      | nil => exact Or.inl rfl
      | cons x xs => simp [containsSeq, startsWithSeq] at h1
  | cons a as ih =>
    rw [List.cons_append, containsSeq] at h
    rcases Bool.or_eq_true_iff.mp h with h1 | h1
    · rcases startsWithSeq_snoc (s := a :: as) h1 with h2 | h2
      · exact Or.inl (by rw [containsSeq]; simp [h2])
      · exact Or.inr h2
    · rcases ih h1 with h2 | h2
      · exact Or.inl (by rw [containsSeq]; simp [h2])
      · exact Or.inr h2

theorem containsSeq_append_left {m s : List Char} (u : List Char)
    (h : containsSeq m s = true) : containsSeq m (s ++ u) = true := by
  induction s with
  | nil =>
    rw [containsSeq] at h
    cases m with
    | nil =>
      cases u with
      | nil => rfl
      | cons y ys => simp [containsSeq, startsWithSeq]
    | cons x xs => simp [startsWithSeq] at h
  | cons c cs ih =>
    rw [containsSeq] at h
    rcases Bool.or_eq_true_iff.mp h with h1 | h1
    · rw [List.cons_append, containsSeq]
      have h2 := startsWithSeq_append u h1
      rw [List.cons_append] at h2
      simp [h2]
    · rw [List.cons_append, containsSeq]
      simp [ih h1]

theorem containsSeq_snoc_ne {m s : List Char} {c : Char}
    (hm : m.getLast? ≠ some c) :
    containsSeq m (s ++ [c]) = containsSeq m s := by
  cases h1 : containsSeq m (s ++ [c]) with
  | true =>
    rcases containsSeq_snoc h1 with h2 | h2
    · exact h2.symm
    · exact absurd h2 hm
  | false =>
    cases h2 : containsSeq m s with
    | true => rw [← h1, containsSeq_append_left [c] h2]
    | false => rfl

/-! ### Evaluation and inversion of the identifier patterns -/

theorem matchURLAt_nil : matchURLAt [] = none := rfl

theorem matchURLAt_cons_ne {c : Char} (cs : List Char) (hc : c ≠ 'g') :
    matchURLAt (c :: cs) = none := by
  have h0 : dropSeq "github.com/".data (c :: cs) = none := by
    rw [show "github.com/".data = 'g' :: "ithub.com/".data from rfl]
    simp [dropSeq, Ne.symm hc]
  unfold matchURLAt
  rw [h0]

theorem findURLMatch_cons_some {c : Char} {cs : List Char} {r : ParsedPR}
    (h : matchURLAt (c :: cs) = some r) : findURLMatch (c :: cs) = some r := by
  rw [findURLMatch, h]

theorem findURLMatch_cons_none {c : Char} {cs : List Char}
    (h : matchURLAt (c :: cs) = none) : findURLMatch (c :: cs) = findURLMatch cs := by
  rw [findURLMatch, h]

theorem findURLMatch_skip (pre t : List Char)
    (h : ∀ c ∈ pre, c ≠ 'g') : findURLMatch (pre ++ t) = findURLMatch t := by
  induction pre with
  | nil => rfl
  | cons p ps ih =>
    rw [List.cons_append,
      findURLMatch_cons_none (matchURLAt_cons_ne _ (h p (by simp)))]
    exact ih fun c hc => h c (by simp [hc])

theorem matchURLAt_eval {o r d : List Char} (post : List Char)
    (ho : o ≠ []) (ho2 : ∀ c ∈ o, nonSlash c = true)
    (hr : r ≠ []) (hr2 : ∀ c ∈ r, nonSlash c = true)
    (hd : d ≠ []) (hd2 : ∀ c ∈ d, Char.isDigit c = true) :
    matchURLAt
        ("github.com/".data ++ (o ++ '/' :: (r ++ '/' :: ("pull/".data ++ (d ++ post))))) =
      some ⟨o, r, digitsToNat (d ++ post.takeWhile Char.isDigit)⟩ := by
  have h0 := dropSeq_self_append "github.com/".data
    (o ++ '/' :: (r ++ '/' :: ("pull/".data ++ (d ++ post))))
  have h1 := takeWhile_sep nonSlash (x := '/') (r ++ '/' :: ("pull/".data ++ (d ++ post)))
    ho2 (by decide)
  have h2 := takeWhile_sep nonSlash (x := '/') ("pull/".data ++ (d ++ post)) hr2 (by decide)
  have h3 : dropSeq "/".data ('/' :: (r ++ '/' :: ("pull/".data ++ (d ++ post)))) =
      some (r ++ '/' :: ("pull/".data ++ (d ++ post))) :=
    dropSeq_self_append "/".data _
  have h4 : dropSeq "/pull/".data ('/' :: ("pull/".data ++ (d ++ post))) =
      some (d ++ post) :=
    dropSeq_self_append "/pull/".data _
  have h5 := takeWhile_all_append Char.isDigit post hd2
  unfold matchURLAt
  rw [h0]
  simp only [h1.1, h1.2, h3, h2.1, h2.2, h4, h5]
  simp [ho, hr, hd]

theorem matchURLAt_sound {s : List Char} {res : ParsedPR}
    (h : matchURLAt s = some res) :
    ∃ o r d rest,
      s = "github.com/".data ++ (o ++ '/' :: (r ++ '/' :: ("pull/".data ++ (d ++ rest)))) ∧
      o ≠ [] ∧ (∀ c ∈ o, nonSlash c = true) ∧
      r ≠ [] ∧ (∀ c ∈ r, nonSlash c = true) ∧
      d ≠ [] ∧ (∀ c ∈ d, Char.isDigit c = true) ∧
      res = ⟨o, r, digitsToNat d⟩ := by
  unfold matchURLAt at h
  split at h
  · exact absurd h (by simp)
  next r0 heq0 =>
    split at h
    · exact absurd h (by simp)
    next hne1 =>
      split at h
      · exact absurd h (by simp)
      next r2 heq1 =>
        split at h
        · exact absurd h (by simp)
        next hne2 =>
          split at h
          · exact absurd h (by simp)
          next r4 heq2 =>
            split at h
            · exact absurd h (by simp)
            next hne3 =>
              refine ⟨r0.takeWhile nonSlash, r2.takeWhile nonSlash,
                r4.takeWhile Char.isDigit, r4.dropWhile Char.isDigit,
                ?_, hne1, ?_, hne2, ?_, hne3, ?_, ?_⟩
              · have e0 := dropSeq_eq_some heq0
                have e1 := dropSeq_eq_some heq1
                have e2 := dropSeq_eq_some heq2
                rw [e0]
                congr 1
                calc r0 = r0.takeWhile nonSlash ++ r0.dropWhile nonSlash :=
                      (List.takeWhile_append_dropWhile ..).symm
                  _ = r0.takeWhile nonSlash ++ ('/' :: r2) := by rw [e1]; rfl
                  _ = r0.takeWhile nonSlash ++
                        ('/' :: (r2.takeWhile nonSlash ++ r2.dropWhile nonSlash)) := by
                      rw [List.takeWhile_append_dropWhile]
                  _ = r0.takeWhile nonSlash ++
                        ('/' :: (r2.takeWhile nonSlash ++
                          ('/' :: ("pull/".data ++ r4)))) := by rw [e2]; rfl
                  _ = r0.takeWhile nonSlash ++
                        ('/' :: (r2.takeWhile nonSlash ++
                          ('/' :: ("pull/".data ++
                            (r4.takeWhile Char.isDigit ++
                              r4.dropWhile Char.isDigit))))) := by
                      rw [List.takeWhile_append_dropWhile]
              · exact fun c hc => List.mem_takeWhile_imp hc
              · exact fun c hc => List.mem_takeWhile_imp hc
              · exact fun c hc => List.mem_takeWhile_imp hc
              · exact (Option.some.inj h).symm

theorem findURLMatch_sound {s : List Char} {res : ParsedPR}
    (h : findURLMatch s = some res) :
    ∃ pre t, s = pre ++ t ∧ matchURLAt t = some res := by
  induction s with
  | nil => exact absurd h (by simp [findURLMatch])
  | cons c cs ih =>
    rw [findURLMatch] at h
    split at h
    · next r heq => exact ⟨[], c :: cs, rfl, by rw [heq, h]⟩
    · next heq =>
      obtain ⟨pre, t, hpre, hm⟩ := ih h
      exact ⟨c :: pre, t, by rw [List.cons_append, hpre], hm⟩

theorem findURLMatch_isSome_append {t : List Char} {res : ParsedPR}
    (pre : List Char) (h : matchURLAt t = some res) :
    (findURLMatch (pre ++ t)).isSome = true := by
  induction pre with
  | nil =>
    cases t with
    | nil => rw [matchURLAt_nil] at h; exact absurd h (by simp)
    | cons c cs => simp [findURLMatch_cons_some h]
  | cons p ps ih =>
    rw [List.cons_append, findURLMatch]
    split
    · simp
    · exact ih

theorem not_slash_of_digit {c : Char} (h : Char.isDigit c = true) : c ≠ '/' := by
  rintro rfl; exact absurd h (by decide)

theorem not_mem_of_nonSlash {l : List Char}
    (h : ∀ c ∈ l, nonSlash c = true) : '/' ∉ l := by
  intro hmem
  have := h '/' hmem
  simp [nonSlash] at this

theorem nonSlash_of_not_mem {l : List Char} (h : '/' ∉ l) :
    ∀ c ∈ l, nonSlash c = true := by
  intro c hc
  simp only [nonSlash, Bool.not_eq_true', beq_eq_false_iff_ne, ne_eq]
  rintro rfl
  exact h hc

theorem nonHash_of_not_mem {l : List Char} (h : '#' ∉ l) :
    ∀ c ∈ l, nonHash c = true := by
  intro c hc
  simp only [nonHash, Bool.not_eq_true', beq_eq_false_iff_ne, ne_eq]
  rintro rfl
  exact h hc

theorem matchURLAt_count {s : List Char} {res : ParsedPR}
    (h : matchURLAt s = some res) : 4 ≤ List.count '/' s := by
  obtain ⟨o, r, d, rest, hs, -, ho2, -, hr2, -, hd2, -⟩ := matchURLAt_sound h
  subst hs
  have hco : List.count '/' o = 0 :=
    List.count_eq_zero_of_not_mem (not_mem_of_nonSlash ho2)
  have hcr : List.count '/' r = 0 :=
    List.count_eq_zero_of_not_mem (not_mem_of_nonSlash hr2)
  have hcd : List.count '/' d = 0 :=
    List.count_eq_zero_of_not_mem fun hm => not_slash_of_digit (hd2 '/' hm) rfl
  simp [List.count_append, List.count_cons, hco, hcr, hcd,
    show List.count '/' "github.com/".data = 1 from by decide,
    show List.count '/' "pull/".data = 1 from by decide]

theorem findURLMatch_count {s : List Char} {res : ParsedPR}
    (h : findURLMatch s = some res) : 4 ≤ List.count '/' s := by
  obtain ⟨pre, t, hs, hm⟩ := findURLMatch_sound h
  subst hs
  have := matchURLAt_count hm
  simp [List.count_append]
  omega

theorem findURLMatch_none_of_count {s : List Char}
    (h : List.count '/' s < 4) : findURLMatch s = none := by
  cases hf : findURLMatch s with
  | none => rfl
  | some r => exact absurd (findURLMatch_count hf) (by omega)

theorem matchShortHash_eval {o r d : List Char}
    (ho : o ≠ []) (ho2 : ∀ c ∈ o, nonSlash c = true)
    (hr : r ≠ []) (hr2 : ∀ c ∈ r, nonHash c = true)
    (hd : d ≠ []) (hd2 : ∀ c ∈ d, Char.isDigit c = true) :
    matchShortHash (o ++ '/' :: (r ++ '#' :: d)) = some ⟨o, r, digitsToNat d⟩ := by
  have h1 := takeWhile_sep nonSlash (x := '/') (r ++ '#' :: d) ho2 (by decide)
  have h2 := takeWhile_sep nonHash (x := '#') d hr2 (by decide)
  have h3 : dropSeq "/".data ('/' :: (r ++ '#' :: d)) = some (r ++ '#' :: d) :=
    dropSeq_self_append "/".data _
  have h4 : dropSeq "#".data ('#' :: d) = some d :=
    dropSeq_self_append "#".data _
  unfold matchShortHash
  simp only [h1.1, h1.2, h3, h2.1, h2.2, h4]
  simp [ho, hr, hd, List.all_eq_true.mpr hd2]

theorem matchPathShort_eval {o r d : List Char}
    (ho : o ≠ []) (ho2 : ∀ c ∈ o, nonSlash c = true)
    (hr : r ≠ []) (hr2 : ∀ c ∈ r, nonSlash c = true)
    (hd : d ≠ []) (hd2 : ∀ c ∈ d, Char.isDigit c = true) :
    matchPathShort (o ++ '/' :: (r ++ '/' :: ("pull/".data ++ d))) =
      some ⟨o, r, digitsToNat d⟩ := by
  have h1 := takeWhile_sep nonSlash (x := '/') (r ++ '/' :: ("pull/".data ++ d)) ho2
    (by decide)
  have h2 := takeWhile_sep nonSlash (x := '/') ("pull/".data ++ d) hr2 (by decide)
  have h3 : dropSeq "/".data ('/' :: (r ++ '/' :: ("pull/".data ++ d))) =
      some (r ++ '/' :: ("pull/".data ++ d)) :=
    dropSeq_self_append "/".data _
  have h4 : dropSeq "/pull/".data ('/' :: ("pull/".data ++ d)) = some d :=
    dropSeq_self_append "/pull/".data _
  unfold matchPathShort
  simp only [h1.1, h1.2, h3, h2.1, h2.2, h4]
  simp [ho, hr, hd, List.all_eq_true.mpr hd2]

theorem matchShortHash_none_no_hash {s : List Char}
    (h : ∀ c ∈ s.dropWhile nonSlash, nonHash c = true) : matchShortHash s = none := by
  unfold matchShortHash
  split
  · rfl
  next h0 =>
    cases h1 : dropSeq "/".data (s.dropWhile nonSlash) with
    | none => rfl
    | some r2 =>
      have hr2 : ∀ c ∈ r2, nonHash c = true := by
        intro c hc
        refine h c ?_
        rw [dropSeq_eq_some h1]
        exact List.mem_append_right _ hc
      have h2 := takeWhile_all nonHash hr2
      dsimp only
      by_cases hnil : r2.takeWhile nonHash = []
      · simp [hnil]
      · rw [if_neg hnil, h2.2]
        rfl

theorem not_hash_of_digit {c : Char} (h : Char.isDigit c = true) :
    nonHash c = true := by
  simp only [nonHash, Bool.not_eq_true', beq_eq_false_iff_ne, ne_eq]
  rintro rfl
  exact absurd h (by decide)

theorem matchShortHash_props {s : List Char} {res : ParsedPR}
    (h : matchShortHash s = some res) :
    res.owner ≠ [] ∧ res.repo ≠ [] ∧
      (∀ c ∈ res.owner, nonSlash c = true) ∧ (∀ c ∈ res.repo, nonHash c = true) := by
  unfold matchShortHash at h
  split at h
  · exact absurd h (by simp)
  next hne1 =>
    split at h
    · exact absurd h (by simp)
    next r2 heq1 =>
      split at h
      · exact absurd h (by simp)
      next hne2 =>
        split at h
        · exact absurd h (by simp)
        next r4 heq2 =>
          split at h
          · exact absurd h (by simp)
          next hne3 =>
            split at h
            · next hall =>
              obtain rfl : (⟨s.takeWhile nonSlash, r2.takeWhile nonHash,
                  digitsToNat r4⟩ : ParsedPR) = res := Option.some.inj h
              exact ⟨hne1, hne2, fun c hc => List.mem_takeWhile_imp hc,
                fun c hc => List.mem_takeWhile_imp hc⟩
            · exact absurd h (by simp)

theorem matchPathShort_props {s : List Char} {res : ParsedPR}
    (h : matchPathShort s = some res) :
    res.owner ≠ [] ∧ res.repo ≠ [] ∧
      (∀ c ∈ res.owner, nonSlash c = true) ∧ (∀ c ∈ res.repo, nonSlash c = true) := by
  unfold matchPathShort at h
  split at h
  · exact absurd h (by simp)
  next hne1 =>
    split at h
    · exact absurd h (by simp)
    next r2 heq1 =>
      split at h
      · exact absurd h (by simp)
      next hne2 =>
        split at h
        · exact absurd h (by simp)
        next r4 heq2 =>
          split at h
          · exact absurd h (by simp)
          next hne3 =>
            split at h
            · next hall =>
              obtain rfl : (⟨s.takeWhile nonSlash, r2.takeWhile nonSlash,
                  digitsToNat r4⟩ : ParsedPR) = res := Option.some.inj h
              exact ⟨hne1, hne2, fun c hc => List.mem_takeWhile_imp hc,
                fun c hc => List.mem_takeWhile_imp hc⟩
            · exact absurd h (by simp)

/-! ### Claim theorems about the identifier resolver -/

/-- Claim C1: for every equivalent triple of inputs in the three accepted
reference shapes, `parsePRIdentifier` yields the identical
(owner, repository, number) triple; in particular the three `facebook/react`
pull 28000 spellings all yield the same parse, with the URL pattern tried
first and the first match winning. -/
theorem claim_C1 (o r d : List Char)
    (ho : o ≠ []) (hos : '/' ∉ o) (hr : r ≠ []) (hrs : '/' ∉ r) (hrh : '#' ∉ r)
    (hd : d ≠ []) (hdd : ∀ c ∈ d, Char.isDigit c = true) :
    parsePRIdentifier
        ("https://github.com/".data ++ o ++ "/".data ++ r ++ "/pull/".data ++ d) =
      Except.ok ⟨o, r, digitsToNat d⟩ ∧
    parsePRIdentifier (o ++ "/".data ++ r ++ "#".data ++ d) =
      Except.ok ⟨o, r, digitsToNat d⟩ ∧
    parsePRIdentifier (o ++ "/".data ++ r ++ "/pull/".data ++ d) =
      Except.ok ⟨o, r, digitsToNat d⟩ ∧
    parsePRIdentifier "https://github.com/facebook/react/pull/28000".data =
      Except.ok ⟨"facebook".data, "react".data, 28000⟩ ∧
    parsePRIdentifier "facebook/react#28000".data =
      Except.ok ⟨"facebook".data, "react".data, 28000⟩ ∧
    parsePRIdentifier "facebook/react/pull/28000".data =
      Except.ok ⟨"facebook".data, "react".data, 28000⟩ := by
  have ho2 := nonSlash_of_not_mem hos
  have hr2 := nonSlash_of_not_mem hrs
  have hrh2 := nonHash_of_not_mem hrh
  have hcd : List.count '/' d = 0 :=
    List.count_eq_zero_of_not_mem fun hm2 => not_slash_of_digit (hdd '/' hm2) rfl
  have hco := List.count_eq_zero_of_not_mem hos
  have hcr := List.count_eq_zero_of_not_mem hrs
  refine ⟨?_, ?_, ?_, rfl, rfl, rfl⟩
  · -- full URL shape
    have hm := matchURLAt_eval [] ho ho2 hr hr2 hd hdd
    simp only [List.append_nil, List.takeWhile_nil] at hm
    have hf : findURLMatch
        ('g' :: ("ithub.com/".data ++ (o ++ '/' :: (r ++ '/' :: ("pull/".data ++ d))))) =
        some ⟨o, r, digitsToNat d⟩ := findURLMatch_cons_some hm
    have hp := findURLMatch_skip "https://".data
      ('g' :: ("ithub.com/".data ++ (o ++ '/' :: (r ++ '/' :: ("pull/".data ++ d)))))
      (by decide)
    have e : "https://github.com/".data ++ o ++ "/".data ++ r ++ "/pull/".data ++ d =
        "https://".data ++
          ('g' :: ("ithub.com/".data ++ (o ++ '/' :: (r ++ '/' :: ("pull/".data ++ d))))) := by
      simp only [List.append_assoc, List.cons_append]
      rfl
    unfold parsePRIdentifier
    rw [e, hp, hf]
  · -- owner/repo#number shape
    have hcount : List.count '/' (o ++ "/".data ++ r ++ "#".data ++ d) < 4 := by
      simp only [List.count_append, hco, hcr, hcd,
        show List.count '/' "/".data = 1 from by decide,
        show List.count '/' "#".data = 0 from by decide]
      omega
    have hfn := findURLMatch_none_of_count hcount
    have hsh : matchShortHash (o ++ "/".data ++ r ++ "#".data ++ d) =
        some ⟨o, r, digitsToNat d⟩ := by
      have e : o ++ "/".data ++ r ++ "#".data ++ d = o ++ '/' :: (r ++ '#' :: d) := by
        simp only [List.append_assoc, List.cons_append]
        rfl
      rw [e]
      exact matchShortHash_eval ho ho2 hr hrh2 hd hdd
    unfold parsePRIdentifier
    rw [hfn, hsh]
  · -- owner/repo/pull/number shape
    have hcount : List.count '/' (o ++ "/".data ++ r ++ "/pull/".data ++ d) < 4 := by
      simp only [List.count_append, hco, hcr, hcd,
        show List.count '/' "/".data = 1 from by decide,
        show List.count '/' "/pull/".data = 2 from by decide]
      omega
    have hfn := findURLMatch_none_of_count hcount
    have e : o ++ "/".data ++ r ++ "/pull/".data ++ d =
        o ++ '/' :: (r ++ '/' :: ("pull/".data ++ d)) := by
      simp only [List.append_assoc, List.cons_append]
      rfl
    have hshn : matchShortHash (o ++ "/".data ++ r ++ "/pull/".data ++ d) = none := by
      rw [e]
      refine matchShortHash_none_no_hash ?_
      rw [(takeWhile_sep nonSlash (x := '/') (r ++ '/' :: ("pull/".data ++ d)) ho2
        (by decide)).2]
      intro c hc
      have hpl : ∀ c ∈ "pull/".data, nonHash c = true := by decide
      rcases List.mem_cons.mp hc with rfl | hc2
      · decide
      rcases List.mem_append.mp hc2 with hc3 | hc3
      · exact hrh2 c hc3
      rcases List.mem_cons.mp hc3 with rfl | hc4
      · decide
      rcases List.mem_append.mp hc4 with hc5 | hc5
      · exact hpl c hc5
      · exact not_hash_of_digit (hdd c hc5)
    have hps : matchPathShort (o ++ "/".data ++ r ++ "/pull/".data ++ d) =
        some ⟨o, r, digitsToNat d⟩ := by
      rw [e]
      exact matchPathShort_eval ho ho2 hr hr2 hd hdd
    unfold parsePRIdentifier
    rw [hfn, hshn, hps]

/-- Witness for C1 at the concrete `facebook/react` pull 28000 triple. -/
theorem claim_C1_witness :
    parsePRIdentifier
        ("https://github.com/".data ++ "facebook".data ++ "/".data ++ "react".data ++
          "/pull/".data ++ "28000".data) =
      Except.ok ⟨"facebook".data, "react".data, digitsToNat "28000".data⟩ ∧
    parsePRIdentifier
        ("facebook".data ++ "/".data ++ "react".data ++ "#".data ++ "28000".data) =
      Except.ok ⟨"facebook".data, "react".data, digitsToNat "28000".data⟩ ∧
    parsePRIdentifier
        ("facebook".data ++ "/".data ++ "react".data ++ "/pull/".data ++ "28000".data) =
      Except.ok ⟨"facebook".data, "react".data, digitsToNat "28000".data⟩ ∧
    parsePRIdentifier "https://github.com/facebook/react/pull/28000".data =
      Except.ok ⟨"facebook".data, "react".data, 28000⟩ ∧
    parsePRIdentifier "facebook/react#28000".data =
      Except.ok ⟨"facebook".data, "react".data, 28000⟩ ∧
    parsePRIdentifier "facebook/react/pull/28000".data =
      Except.ok ⟨"facebook".data, "react".data, 28000⟩ :=
  claim_C1 "facebook".data "react".data "28000".data (by decide) (by decide)
    (by decide) (by decide) (by decide) (by decide) (by decide)

/-- Claim C3 counterexample: the URL shape accepts a repository segment
containing `#` and the number 0, and the `#` shorthand accepts `/` inside
the repository segment, so the claimed invariant is false on the code. -/
theorem claim_C3_counterexample :
    parsePRIdentifier "github.com/a/b#c/pull/0".data =
      Except.ok ⟨"a".data, "b#c".data, 0⟩ ∧
    '#' ∈ "b#c".data ∧ ¬ (0 : Nat) > 0 ∧
    parsePRIdentifier "a/b/c#12".data = Except.ok ⟨"a".data, "b/c".data, 12⟩ ∧
    '/' ∈ "b/c".data :=
  ⟨rfl, by decide, by decide, rfl, by decide⟩

/-- Claim C3 amended: every successful parse yields a non-empty owner and
repository, the owner contains no `/`, and the repository contains no `/`
or no `#` (depending on the shape that matched); the number is only
guaranteed to be a natural number (0 is accepted). -/
theorem claim_C3_amended {s : List Char} {res : ParsedPR}
    (h : parsePRIdentifier s = Except.ok res) :
    res.owner ≠ [] ∧ res.repo ≠ [] ∧ '/' ∉ res.owner ∧
      ('/' ∉ res.repo ∨ '#' ∉ res.repo) := by
  unfold parsePRIdentifier at h
  split at h
  · next r hf =>
    obtain rfl : r = res := Except.ok.inj h
    obtain ⟨pre, t, -, hm⟩ := findURLMatch_sound hf
    obtain ⟨o, rr, d, rest, -, ho, hmo, hrr, hmr, -, -, hres⟩ := matchURLAt_sound hm
    subst hres
    exact ⟨ho, hrr, not_mem_of_nonSlash hmo, Or.inl (not_mem_of_nonSlash hmr)⟩
  · split at h
    · next r hf =>
      obtain rfl : r = res := Except.ok.inj h
      obtain ⟨ho, hrr, hmo, hmr⟩ := matchShortHash_props hf
      refine ⟨ho, hrr, not_mem_of_nonSlash hmo, Or.inr ?_⟩
      intro hmem
      have := hmr '#' hmem
      simp [nonHash] at this
    · split at h
      · next r hf =>
        obtain rfl : r = res := Except.ok.inj h
        obtain ⟨ho, hrr, hmo, hmr⟩ := matchPathShort_props hf
        exact ⟨ho, hrr, not_mem_of_nonSlash hmo, Or.inl (not_mem_of_nonSlash hmr)⟩
      · exact absurd h (by simp)

/-- Witness for the amended C3 at a concrete successful parse. -/
theorem claim_C3_amended_witness :
    "facebook".data ≠ ([] : List Char) ∧ "react".data ≠ ([] : List Char) ∧
      '/' ∉ "facebook".data ∧ ('/' ∉ "react".data ∨ '#' ∉ "react".data) :=
  @claim_C3_amended "facebook/react#28000".data
    ⟨"facebook".data, "react".data, 28000⟩ rfl

/-- Claim C8: whenever `parsePRIdentifier` fails, its error message is the
fixed template and enumerates all three supported reference forms
verbatim. -/
theorem claim_C8 {s e : List Char} (h : parsePRIdentifier s = Except.error e) :
    e = prErrorMessage s ∧
    containsSeq "https://github.com/owner/repo/pull/123".data e = true ∧
    containsSeq "owner/repo#123".data e = true ∧
    containsSeq "owner/repo/pull/123".data e = true := by
  have he : e = prErrorMessage s := by
    unfold parsePRIdentifier at h
    split at h
    · exact absurd h (by simp)
    split at h
    · exact absurd h (by simp)
    split at h
    · exact absurd h (by simp)
    · exact (Except.error.inj h).symm
  subst he
  refine ⟨rfl, ?_, ?_, ?_⟩ <;>
    exact containsSeq_append_right _ (by decide)

/-- Witness for C8: `parsePRIdentifier "not-a-valid-ref"` fails and its
message lists all three supported formats. -/
theorem claim_C8_witness :
    prErrorMessage "not-a-valid-ref".data = prErrorMessage "not-a-valid-ref".data ∧
    containsSeq "https://github.com/owner/repo/pull/123".data
      (prErrorMessage "not-a-valid-ref".data) = true ∧
    containsSeq "owner/repo#123".data (prErrorMessage "not-a-valid-ref".data) = true ∧
    containsSeq "owner/repo/pull/123".data
      (prErrorMessage "not-a-valid-ref".data) = true :=
  @claim_C8 "not-a-valid-ref".data (prErrorMessage "not-a-valid-ref".data) rfl

/-- Claim C10: the URL shape is matched as an unanchored substring — any
input containing `github.com/<segment>/<segment>/pull/<digits>` resolves
successfully, and the resolved triple is the capture of such a contained
substring (the leftmost match, with the digit run extended maximally). -/
theorem claim_C10 (pre o r d post : List Char)
    (ho : o ≠ []) (hos : '/' ∉ o) (hr : r ≠ []) (hrs : '/' ∉ r)
    (hd : d ≠ []) (hdd : ∀ c ∈ d, Char.isDigit c = true) :
    ∃ res,
      parsePRIdentifier
          (pre ++ "github.com/".data ++ o ++ "/".data ++ r ++ "/pull/".data ++ d ++ post) =
        Except.ok res ∧
      ∃ pre2 o2 r2 d2 post2,
        pre ++ "github.com/".data ++ o ++ "/".data ++ r ++ "/pull/".data ++ d ++ post =
          pre2 ++ "github.com/".data ++ o2 ++ "/".data ++ r2 ++ "/pull/".data ++
            d2 ++ post2 ∧
        o2 ≠ [] ∧ '/' ∉ o2 ∧ r2 ≠ [] ∧ '/' ∉ r2 ∧ d2 ≠ [] ∧
        (∀ c ∈ d2, Char.isDigit c = true) ∧ res = ⟨o2, r2, digitsToNat d2⟩ := by
  have hm := matchURLAt_eval post ho (nonSlash_of_not_mem hos) hr
    (nonSlash_of_not_mem hrs) hd hdd
  have hsome := findURLMatch_isSome_append pre hm
  have e : pre ++ "github.com/".data ++ o ++ "/".data ++ r ++ "/pull/".data ++ d ++ post =
      pre ++ ("github.com/".data ++ (o ++ '/' :: (r ++ '/' :: ("pull/".data ++ (d ++ post))))) := by
    simp only [List.append_assoc, List.cons_append]
    rfl
  rw [e]
  obtain ⟨res, hres⟩ := Option.isSome_iff_exists.mp hsome
  refine ⟨res, by unfold parsePRIdentifier; rw [hres], ?_⟩
  obtain ⟨pre2, t, hst, hmt⟩ := findURLMatch_sound hres
  obtain ⟨o2, r2, d2, rest, ht, ho2', hmo, hr2', hmr, hd2', hmd, hres2⟩ :=
    matchURLAt_sound hmt
  refine ⟨pre2, o2, r2, d2, rest, ?_, ho2', not_mem_of_nonSlash hmo, hr2',
    not_mem_of_nonSlash hmr, hd2', hmd, hres2⟩
  rw [hst, ht]
  simp only [List.append_assoc, List.cons_append]
  rfl

/-- Witness for C10: a URL embedded in surrounding prose with a trailing
path still resolves. -/
theorem claim_C10_witness :
    ∃ res,
      parsePRIdentifier
          ("see ".data ++ "github.com/".data ++ "facebook".data ++ "/".data ++
            "react".data ++ "/pull/".data ++ "28000".data ++ "/files".data) =
        Except.ok res ∧
      ∃ pre2 o2 r2 d2 post2,
        "see ".data ++ "github.com/".data ++ "facebook".data ++ "/".data ++
            "react".data ++ "/pull/".data ++ "28000".data ++ "/files".data =
          pre2 ++ "github.com/".data ++ o2 ++ "/".data ++ r2 ++ "/pull/".data ++
            d2 ++ post2 ∧
        o2 ≠ [] ∧ '/' ∉ o2 ∧ r2 ≠ [] ∧ '/' ∉ r2 ∧ d2 ≠ [] ∧
        (∀ c ∈ d2, Char.isDigit c = true) ∧ res = ⟨o2, r2, digitsToNat d2⟩ :=
  claim_C10 "see ".data "facebook".data "react".data "28000".data "/files".data
    (by decide) (by decide) (by decide) (by decide) (by decide) (by decide)

/-! ### Claim theorems about the reviewer extractor -/

theorem startsWithSeq_self (p : List Char) : startsWithSeq p p = true := by
  induction p with
  | nil => rfl
  | cons y ys ihy => simp [startsWithSeq, ihy]

theorem afterFirstSeq_some {p s r : List Char}
    (h : afterFirstSeq p s = some r) : containsSeq p s = true := by
  induction s with
  | nil =>
    rw [afterFirstSeq] at h
    cases p with
    | nil => rfl
    | cons x xs => simp [dropSeq] at h
  | cons c cs ih =>
    rw [afterFirstSeq] at h
    rw [containsSeq]
    split at h
    · next r2 heq =>
      have : startsWithSeq p (c :: cs) = true := by
        have e := dropSeq_eq_some heq
        rw [e]
        exact startsWithSeq_append r2 (startsWithSeq_self p)
      simp [this]
    · simp [ih h]

theorem afterFirstSeq_none {p s : List Char}
    (h : containsSeq p s = false) : afterFirstSeq p s = none := by
  induction s with
  | nil =>
    rw [containsSeq] at h
    rw [afterFirstSeq]
    cases p with
    | nil => simp [startsWithSeq] at h
    | cons x xs => rfl
  | cons c cs ih =>
    rw [containsSeq, Bool.or_eq_false_iff] at h
    rw [afterFirstSeq]
    cases heq : dropSeq p (c :: cs) with
    | none => exact ih h.2
    | some r2 =>
      have : startsWithSeq p (c :: cs) = true := by
        have e := dropSeq_eq_some heq
        rw [e]
        exact startsWithSeq_append r2 (startsWithSeq_self p)
      rw [this] at h
      exact absurd h.1 (by simp)

/-- Claim C2 counterexample: a line with two mentions contributes only the
first one (the regex `/@(\w+)/` is not global), and the section is cut at
the first occurrence of `##` even mid-line, so the claimed "collect every
token of the span" behaviour is false on the code. -/
theorem claim_C2_counterexample :
    extractReviewers
        "## 👥 Recommended Reviewers\n- @alice and @bob\nsee x## note\n- @carol\n## ⚠️ Areas of Concern".data =
      ["alice".data] ∧
    ["alice".data] ≠ ["alice".data, "bob".data, "carol".data] :=
  ⟨rfl, by decide⟩

/-- Claim C2 amended: `extractReviewers` takes the span between the first
occurrence of the "Recommended Reviewers" heading and the next occurrence
of `##` anywhere (or end of text), collects the first `@`-prefixed
word-character token of each line of that span in line order (duplicates
across lines preserved), and returns the empty sequence when the heading
is absent. -/
theorem claim_C2_amended :
    (∀ review : List Char, containsSeq reviewersHeading review = false →
      extractReviewers review = []) ∧
    extractReviewers
        "## 👥 Recommended Reviewers\n- @alice (Alice) - frontend\n- @bob (Bob) - backend\n## ⚠️ Areas of Concern\n...".data =
      ["alice".data, "bob".data] ∧
    extractReviewers
        "## 👥 Recommended Reviewers\n- @alice (A) - x\n- @alice (A) - y\n## End".data =
      ["alice".data, "alice".data] ∧
    extractReviewers "no heading here".data = [] := by
  refine ⟨?_, rfl, rfl, rfl⟩
  intro review h
  unfold extractReviewers
  rw [afterFirstSeq_none h]

/-- Witness for the amended C2: a review without the heading yields no
reviewers. -/
theorem claim_C2_amended_witness :
    containsSeq reviewersHeading "just some text".data = false ∧
    extractReviewers "just some text".data = [] :=
  ⟨by decide, claim_C2_amended.1 "just some text".data (by decide)⟩

/-! ### Claim theorems about diff reconstruction -/

/-- The example file with a patch from the spec's test vector. -/
def exampleFileA : PRFile :=
  ⟨"a.ts".data, FileStatus.modified, 1, 1, 2, some "@@ -1 +1 @@\n-x\n+y".data⟩

/-- The example file without a patch from the spec's test vector. -/
def exampleFileB : PRFile :=
  ⟨"b.ts".data, FileStatus.modified, 0, 0, 0, none⟩

/-- Claim C4: the reconstructed diff is exactly the blank-line-joined
concatenation of `diff --git` blocks over the files with a non-empty
patch, in API order; files without a patch contribute nothing to the diff
but still appear in the `files` sequence; on the spec's example there is
exactly one `a.ts` block and no `b.ts` block. -/
theorem claim_C4 :
    (∀ (f : PRFile) (fs : List PRFile), patchTruthy f = false →
      constructDiff (f :: fs) = constructDiff fs) ∧
    (∀ (f : PRFile) (fs : List PRFile), patchTruthy f = true →
      constructDiff (f :: fs) =
        diffBlock f ++
          (if fs.filter patchTruthy = [] then []
           else "\n\n".data ++ constructDiff fs)) ∧
    (∀ (n : Nat) (t b a u : List Char) (files : List PRFile),
      (buildPRData n t b a u files).files = files ∧
      (buildPRData n t b a u files).diff = constructDiff files) ∧
    constructDiff [exampleFileA, exampleFileB] =
      "diff --git a/a.ts b/a.ts\n@@ -1 +1 @@\n-x\n+y".data ∧
    countSeq "diff --git a/a.ts b/a.ts".data
      (constructDiff [exampleFileA, exampleFileB]) = 1 ∧
    containsSeq "diff --git a/b.ts".data
      (constructDiff [exampleFileA, exampleFileB]) = false := by
  refine ⟨?_, ?_, fun n t b a u files => ⟨rfl, rfl⟩, rfl, by decide, by decide⟩
  · intro f fs h
    simp [constructDiff, List.filter_cons, h]
  · intro f fs h
    rw [constructDiff, List.filter_cons, if_pos h, List.map_cons]
    cases hfs : (fs.filter patchTruthy).map diffBlock with
    | nil =>
      have : fs.filter patchTruthy = [] := by
        cases hh : fs.filter patchTruthy with
        | nil => rfl
        | cons z zs => rw [hh] at hfs; simp at hfs
      rw [joinSep, this]
      simp
    | cons y ys =>
      have hne : ¬(fs.filter patchTruthy = []) := by
        intro hh
        rw [hh] at hfs
        simp at hfs
      rw [if_neg hne, constructDiff, hfs]
      show diffBlock f ++ "\n\n".data ++ joinSep "\n\n".data (y :: ys) =
        diffBlock f ++ ("\n\n".data ++ joinSep "\n\n".data (y :: ys))
      rw [List.append_assoc]

/-- Witness for C4 at the spec's example files. -/
theorem claim_C4_witness :
    patchTruthy exampleFileB = false ∧
    constructDiff [exampleFileB, exampleFileA] = constructDiff [exampleFileA] ∧
    patchTruthy exampleFileA = true ∧
    constructDiff [exampleFileA] =
      diffBlock exampleFileA ++
        (if ([] : List PRFile).filter patchTruthy = [] then []
         else "\n\n".data ++ constructDiff []) :=
  ⟨rfl, claim_C4.1 exampleFileB [exampleFileA] rfl, rfl,
    claim_C4.2.1 exampleFileA [] rfl⟩

/-! ### Claim theorems about the streaming loop -/

theorem marker_ensureNl {t : List Char}
    (h : containsSeq markerHeading t = false) :
    containsSeq markerHeading (ensureNl t) = false := by
  unfold ensureNl
  split
  · exact h
  · rw [containsSeq_snoc_ne (by decide)]
    exact h

theorem runStream_aux (msgs : List StreamMessage) (st : StreamState) :
    (msgs.foldl streamStep st).out = st.out ++ liveTexts msgs ∧
    (msgs.foldl streamStep st).fullReview =
      msgs.foldl
        (fun acc m =>
          match m with
          | StreamMessage.result r => r
          | _ => acc) st.fullReview := by
  induction msgs generalizing st with
  | nil => simp [liveTexts]
  | cons m ms ih =>
    rw [List.foldl_cons, List.foldl_cons]
    cases m with
    | assistant content =>
      rw [liveTexts, List.filterMap_cons]
      cases hft : firstText content with
      | none => simpa [streamStep, hft, liveTexts] using ih st
      | some t =>
        cases hmk : containsSeq markerHeading t with
        | true => simpa [streamStep, hft, hmk, liveTexts] using ih st
        | false =>
          have := ih { st with out := st.out ++ [ensureNl t] }
          simpa [streamStep, hft, hmk, liveTexts, List.append_assoc] using this
    | user content =>
      rw [liveTexts, List.filterMap_cons]
      cases hft : firstText content with
      | none => simpa [streamStep, hft, liveTexts] using ih st
      | some t =>
        cases hmk : containsSeq markerHeading t with
        | true => simpa [streamStep, hft, hmk, liveTexts] using ih st
        | false =>
          have := ih { st with out := st.out ++ [ensureNl t] }
          simpa [streamStep, hft, hmk, liveTexts, List.append_assoc] using this
    | result r =>
      simpa [streamStep, liveTexts] using ih { st with fullReview := r }
    | other =>
      simpa [streamStep, liveTexts] using ih st

theorem liveTexts_no_marker (msgs : List StreamMessage) :
    ∀ t ∈ liveTexts msgs, containsSeq markerHeading t = false := by
  intro t ht
  obtain ⟨m, -, hm⟩ := List.mem_filterMap.mp ht
  cases m with
  | assistant content =>
    simp only at hm
    cases hft : firstText content with
    | none => rw [hft] at hm; simp at hm
    | some t0 =>
      rw [hft] at hm
      simp only [Option.some_bind] at hm
      split at hm
      · exact absurd hm (by simp)
      · next hmk =>
        obtain rfl : ensureNl t0 = t := Option.some.inj hm
        exact marker_ensureNl (by simpa using hmk)
  | user content =>
    simp only at hm
    cases hft : firstText content with
    | none => rw [hft] at hm; simp at hm
    | some t0 =>
      rw [hft] at hm
      simp only [Option.some_bind] at hm
      split at hm
      · exact absurd hm (by simp)
      · next hmk =>
        obtain rfl : ensureNl t0 = t := Option.some.inj hm
        exact marker_ensureNl (by simpa using hmk)
  | result r => simp at hm
  | other => simp at hm

/-- Claim C5: in the streaming loop, the chunks written live are exactly
the newline-normalized text increments that do not contain the
final-review marker (marker-bearing increments are never written), and
the captured full review is the payload of the last result event
(overwrite semantics). -/
theorem claim_C5 (msgs : List StreamMessage) :
    (runStream msgs).out = liveTexts msgs ∧
    (runStream msgs).fullReview = lastResultPayload msgs ∧
    ∀ t ∈ (runStream msgs).out, containsSeq markerHeading t = false := by
  have h := runStream_aux msgs ⟨[], []⟩
  refine ⟨by simpa [runStream] using h.1, by simpa [runStream, lastResultPayload] using h.2, ?_⟩
  intro t ht
  have h1 : (runStream msgs).out = liveTexts msgs := by simpa [runStream] using h.1
  rw [h1] at ht
  exact liveTexts_no_marker msgs t ht

/-- Witness for C5 at a concrete stream: a normal increment, a
marker-bearing increment, and a final result. -/
theorem claim_C5_witness :
    (runStream
        [StreamMessage.assistant [CBlock.textBlock "Analyzing...".data],
         StreamMessage.assistant [CBlock.textBlock "## 📋 PR Summary\nAll good".data],
         StreamMessage.result "## 📋 PR Summary\nAll good".data]).out =
      liveTexts
        [StreamMessage.assistant [CBlock.textBlock "Analyzing...".data],
         StreamMessage.assistant [CBlock.textBlock "## 📋 PR Summary\nAll good".data],
         StreamMessage.result "## 📋 PR Summary\nAll good".data] ∧
    containsSeq markerHeading "Analyzing...\n".data = false :=
  ⟨(claim_C5 _).1,
    (claim_C5
      [StreamMessage.assistant [CBlock.textBlock "Analyzing...".data],
       StreamMessage.assistant [CBlock.textBlock "## 📋 PR Summary\nAll good".data],
       StreamMessage.result "## 📋 PR Summary\nAll good".data]).2.2
      "Analyzing...\n".data (by decide)⟩

/-! ### Claim theorems about the interactive action loop -/

theorem decide_pos_length (l : List (List Char)) :
    decide (0 < l.length) = !l.isEmpty := by
  cases l with
  | nil => rfl
  | cons h t => simp

/-- Claim C6: the readline interface is closed on every exit path of
`handleInteractivePrompts`; only a case-insensitive "y"/"yes" answer
triggers the assignment (anything else, including the empty answer,
defaults to no); when both questions are answered the comment prompt is
always reached and no error propagates, regardless of whether the
assignment command failed; and the prompt loop is entered exactly when
the run is interactive and the extracted reviewer list is non-empty. -/
theorem claim_C6 :
    (∀ env : PromptEnv, (handleInteractivePrompts env).1.rlClosed = true) ∧
    (∀ (env : PromptEnv) (a : List Char), env.ans1 = Except.ok a →
      ((handleInteractivePrompts env).1.assignCmdRun = true ↔
        toLowerStr a = "y".data ∨ toLowerStr a = "yes".data)) ∧
    (∀ (env : PromptEnv) (a b : List Char), env.ans1 = Except.ok a →
      env.ans2 = Except.ok b →
      (handleInteractivePrompts env).1.commentPromptReached = true ∧
      (handleInteractivePrompts env).2 = none) ∧
    (∀ (n : Bool) (fullReview : List Char),
      promptsEntered n fullReview = (!n && !(extractReviewers fullReview).isEmpty)) := by
  refine ⟨?_, ?_, ?_, ?_⟩
  · rintro ⟨a1, a2, af, pf⟩
    cases a1 <;> cases a2 <;> rfl
  · rintro ⟨a1, a2, af, pf⟩ a h
    cases a1 with
    | error e => simp at h
    | ok v =>
      obtain rfl : v = a := Except.ok.inj h
      cases a2 <;>
        simp [handleInteractivePrompts, isYesAnswer]
  · rintro ⟨a1, a2, af, pf⟩ a b h1 h2
    cases a1 with
    | error e => simp at h1
    | ok v =>
      cases a2 with
      | error e => simp at h2
      | ok w => exact ⟨rfl, rfl⟩
  · intro n fullReview
    cases fullReview with
    | nil => cases n <;> rfl
    | cons c cs =>
      rw [promptsEntered, decide_pos_length]
      rfl

/-- Witness for C6: accept both prompts while the assignment command
fails; the loop still reaches the comment prompt and closes its
readline interface. -/
theorem claim_C6_witness :
    (handleInteractivePrompts
        ⟨Except.ok "y".data, Except.ok "YES".data, true, false⟩).1.rlClosed = true ∧
    ((handleInteractivePrompts
        ⟨Except.ok "y".data, Except.ok "YES".data, true, false⟩).1.assignCmdRun = true ↔
      toLowerStr "y".data = "y".data ∨ toLowerStr "y".data = "yes".data) ∧
    (handleInteractivePrompts
        ⟨Except.ok "y".data, Except.ok "YES".data, true, false⟩).1.commentPromptReached = true ∧
    (handleInteractivePrompts
        ⟨Except.ok "y".data, Except.ok "YES".data, true, false⟩).2 = none ∧
    promptsEntered false "## 👥 Recommended Reviewers\n- @alice\n## End".data =
      (!false &&
        !(extractReviewers "## 👥 Recommended Reviewers\n- @alice\n## End".data).isEmpty) :=
  ⟨claim_C6.1 _, claim_C6.2.1 _ "y".data rfl,
    (claim_C6.2.2.1 _ "y".data "YES".data rfl rfl).1,
    (claim_C6.2.2.1 _ "y".data "YES".data rfl rfl).2,
    claim_C6.2.2.2 false _⟩

/-! ### Claim theorems about comment posting and its temp file -/

theorem fsHas_unlink (fs : FSState) (name : List Char) :
    fsHas (fsUnlink fs name) name = false := by
  simp only [fsHas, fsUnlink]
  rw [Bool.eq_false_iff]
  intro h
  obtain ⟨p, hp, hp2⟩ := List.any_eq_true.mp h
  have := (List.mem_filter.mp hp).2
  rw [hp2] at this
  simp at this

/-- Claim C7: `postReviewComment` writes the review body to a temp file
whose name embeds the PR number and the timestamp, and the temp file is
absent from the file system after the call on every path — including when
the post command fails and when even the write fails. -/
theorem claim_C7 (prNumber ts : Nat) (review : List Char)
    (writeFails postFails : Bool) (fs : FSState) :
    fsHas (postReviewComment prNumber ts review writeFails postFails fs).fsAfter
        (tempFileName prNumber ts) = false ∧
    (writeFails = false →
      (postReviewComment prNumber ts review writeFails postFails fs).wrote =
        some (tempFileName prNumber ts, review)) ∧
    containsSeq (natChars prNumber) (tempFileName prNumber ts) = true ∧
    containsSeq (natChars ts) (tempFileName prNumber ts) = true := by
  refine ⟨?_, ?_, ?_, ?_⟩
  · unfold postReviewComment
    cases writeFails <;> simp <;> exact fsHas_unlink _ _
  · intro h
    subst h
    rfl
  · have h := containsSeq_middle (natChars prNumber) ".review-".data
      ("-".data ++ (natChars ts ++ ".md".data))
    have e : tempFileName prNumber ts =
        ".review-".data ++ natChars prNumber ++
          ("-".data ++ (natChars ts ++ ".md".data)) := by
      simp [tempFileName, List.append_assoc]
    rw [e]
    exact h
  · have h := containsSeq_middle (natChars ts)
      (".review-".data ++ (natChars prNumber ++ "-".data)) ".md".data
    have e : tempFileName prNumber ts =
        ".review-".data ++ (natChars prNumber ++ "-".data) ++ natChars ts ++
          ".md".data := by
      simp [tempFileName, List.append_assoc]
    rw [e]
    simpa [List.append_assoc] using h

/-- Witness for C7 at a concrete call whose post command throws. -/
theorem claim_C7_witness :
    fsHas (postReviewComment 42 1700 "LGTM".data false true ⟨[]⟩).fsAfter
        (tempFileName 42 1700) = false ∧
    (postReviewComment 42 1700 "LGTM".data false true ⟨[]⟩).wrote =
      some (tempFileName 42 1700, "LGTM".data) ∧
    containsSeq (natChars 42) (tempFileName 42 1700) = true ∧
    containsSeq (natChars 1700) (tempFileName 42 1700) = true :=
  ⟨(claim_C7 42 1700 "LGTM".data false true ⟨[]⟩).1,
    (claim_C7 42 1700 "LGTM".data false true ⟨[]⟩).2.1 rfl,
    (claim_C7 42 1700 "LGTM".data false true ⟨[]⟩).2.2.1,
    (claim_C7 42 1700 "LGTM".data false true ⟨[]⟩).2.2.2⟩

/-! ### Claim theorem about the prompt formatter -/

theorem trimChars_wrap (m : List Char) :
    trimChars ('\n' :: '#' :: (m ++ ['\n', '\x60', '\x60', '\x60', '\n'])) =
      '#' :: (m ++ ['\n', '\x60', '\x60', '\x60']) := by
  have e1 : jsWhitespace '\n' = true := by decide
  have e2 : jsWhitespace '#' = false := by decide
  have e3 : jsWhitespace '\x60' = false := by decide
  unfold trimChars
  rw [List.dropWhile_cons, if_pos e1, List.dropWhile_cons, if_neg (by simp [e2])]
  rw [show ('#' :: (m ++ ['\n', '\x60', '\x60', '\x60', '\n'])) =
      (('#' :: m) ++ ['\n', '\x60', '\x60', '\x60', '\n']) from rfl]
  rw [List.reverse_append]
  rw [show List.reverse ['\n', '\x60', '\x60', '\x60', '\n'] =
      ['\n', '\x60', '\x60', '\x60', '\n'] from rfl]
  rw [show (['\n', '\x60', '\x60', '\x60', '\n'] ++ ('#' :: m).reverse) =
      '\n' :: ('\x60' :: '\x60' :: '\x60' :: '\n' :: ('#' :: m).reverse) from rfl]
  rw [List.dropWhile_cons, if_pos e1, List.dropWhile_cons, if_neg (by simp [e3])]
  rw [show ('\x60' :: '\x60' :: '\x60' :: '\n' :: ('#' :: m).reverse) =
      (['\x60', '\x60', '\x60', '\n'] ++ ('#' :: m).reverse) from rfl]
  rw [List.reverse_append, List.reverse_reverse]
  rfl

theorem trimChars_template (m : List Char) :
    trimChars ("\n# Pull Request #".data ++ (m ++ "\n\x60\x60\x60\n".data)) =
      "# Pull Request #".data ++ (m ++ "\n\x60\x60\x60".data) := by
  have h := trimChars_wrap (" Pull Request #".data ++ m)
  rw [List.append_assoc] at h
  exact h

/-- Claim C9: `formatPRDataForAgent` produces exactly the fixed template:
header with PR number and title, author and URL lines, a Description
section with a literal placeholder when the body is empty, a Changed
Files section listing `  - <path> (+<additions>, -<deletions>)` per file
in order, and a Full Diff section wrapping the unified diff in a fenced
block tagged `diff`. -/
theorem claim_C9 (pr : PRData) :
    formatPRDataForAgent pr =
      "# Pull Request #".data ++ natChars pr.number ++ ": ".data ++ pr.title ++
        "\n\n**Author:** @".data ++ pr.author ++ "\n**URL:** ".data ++ pr.url ++
        "\n\n## Description\n\n".data ++
        (if pr.body = [] then "(No description provided)".data else pr.body) ++
        "\n\n## Changed Files\n\n".data ++ filesListOf pr.files ++
        "\n\n## Full Diff\n\n\x60\x60\x60diff\n".data ++ pr.diff ++
        "\n\x60\x60\x60".data := by
  have h := trimChars_template
    (natChars pr.number ++ (": ".data ++ (pr.title ++ ("\n\n**Author:** @".data ++
      (pr.author ++ ("\n**URL:** ".data ++ (pr.url ++ ("\n\n## Description\n\n".data ++
      ((if pr.body = [] then "(No description provided)".data else pr.body) ++
      ("\n\n## Changed Files\n\n".data ++ (filesListOf pr.files ++
      ("\n\n## Full Diff\n\n\x60\x60\x60diff\n".data ++ pr.diff))))))))))))
  unfold formatPRDataForAgent
  have e : "\n# Pull Request #".data ++ natChars pr.number ++ ": ".data ++ pr.title ++
      "\n\n**Author:** @".data ++ pr.author ++ "\n**URL:** ".data ++ pr.url ++
      "\n\n## Description\n\n".data ++
      (if pr.body = [] then "(No description provided)".data else pr.body) ++
      "\n\n## Changed Files\n\n".data ++ filesListOf pr.files ++
      "\n\n## Full Diff\n\n\x60\x60\x60diff\n".data ++ pr.diff ++
      "\n\x60\x60\x60\n".data =
      "\n# Pull Request #".data ++
        ((natChars pr.number ++ (": ".data ++ (pr.title ++ ("\n\n**Author:** @".data ++
          (pr.author ++ ("\n**URL:** ".data ++ (pr.url ++ ("\n\n## Description\n\n".data ++
          ((if pr.body = [] then "(No description provided)".data else pr.body) ++
          ("\n\n## Changed Files\n\n".data ++ (filesListOf pr.files ++
          ("\n\n## Full Diff\n\n\x60\x60\x60diff\n".data ++ pr.diff)))))))))))) ++
          "\n\x60\x60\x60\n".data) := by
    simp only [List.append_assoc]
  rw [e, h]
  simp only [List.append_assoc]

end CRA
